import Mathlib

/-!
# Verification of the zebra-epl2-printer label builder

Shallow embedding of the Rust sources (`src/barcode.rs`, `src/epl.rs`,
`src/graphics.rs`, `src/builder.rs`, `src/lib.rs`) and proofs of the
behavioural claims about them.

Strings are modelled as `List Char` (the sequence of Unicode scalar values,
matching Rust `char` iteration); machine integers are modelled as `Nat`/`Int`
with explicit wrap-around where the source can overflow.  The external
collaborators that the spec puts out of scope (the font/glyph engine, the
`unicode-bidi` run resolver and the `ar_reshaper` shaping primitive) are
modelled at their interface: rendered bitmaps, resolved runs and the reshape
function are parameters of the embedded functions.
-/

namespace ZebraEpl

/-- `char::is_ascii_digit` from Rust: `'0' <= c && c <= '9'`. -/
def isAsciiDigit (c : Char) : Bool := 48 ≤ c.toNat && c.toNat ≤ 57

/-- `char::to_digit(10)` on an ASCII digit: numeric value of the digit. -/
def digitVal (c : Char) : Nat := c.toNat - 48

/-- `String.data` of a literal, used to write `List Char` values readably. -/
def chars (s : String) : List Char := s.data

namespace Barcode

/-- The final step of `compute_ean13_checksum`:
`if modulo == 0 { 0 } else { 10 - modulo }` applied to the weighted sum. -/
def ean13CheckFromSum (sum : Nat) : Nat :=
  if sum % 10 = 0 then 0 else 10 - sum % 10

/-- Embeds `compute_ean13_checksum` (src/barcode.rs lines 24-40): requires 12
ASCII digits, sums digits at even indices with weight 1 and odd indices with
weight 3 (the loop `if (i % 2) == 0 { sum += d } else { sum += d * 3 }`), and
finishes with `ean13CheckFromSum`. -/
def compute_ean13_checksum (digits : List Char) : Except String Nat :=
  if digits.length ≠ 12 ∨ ¬ (digits.all isAsciiDigit) then
    .error "EAN13 checksum requires 12 digits"
  else
    .ok (ean13CheckFromSum (digits.enum.foldl
      (fun acc p => if p.1 % 2 = 0 then acc + digitVal p.2 else acc + digitVal p.2 * 3) 0))

/-- Embeds `normalize_ean13` (src/barcode.rs lines 2-22): drop non-digits,
then append the check digit to 12 digits, validate the 13th digit of 13
digits, and reject any other length. -/
def normalize_ean13 (code0 : List Char) : Except String (List Char) :=
  let code := code0.filter isAsciiDigit
  if code.length = 12 then
    match compute_ean13_checksum code with
    | .ok check => .ok (code ++ [Char.ofNat (48 + check)])
    | .error e => .error e
  else if code.length = 13 then
    match compute_ean13_checksum (code.take 12) with
    | .ok expected =>
        if expected = digitVal (code.getD 12 'a') then .ok code
        else .error "invalid checksum"
    | .error e => .error e
  else .error "barcode must have 12 or 13 digits"

/-- The weighted digit sum exactly as the spec words it: weight 1 at even
indices, weight 3 at odd indices.  (Spec-side definition for claim C2.) -/
def specWeightedSum (digits : List Char) : Nat :=
  (digits.enum.map (fun p => if p.1 % 2 = 0 then digitVal p.2 else 3 * digitVal p.2)).sum

/-- The check digit formula exactly as the spec words it:
`(10 - (sum mod 10)) mod 10`.  (Spec-side definition for claim C2.) -/
def specEan13CheckDigit (digits : List Char) : Nat :=
  (10 - specWeightedSum digits % 10) % 10

theorem checksum_foldl_eq (l : List (Nat × Char)) :
    ∀ acc : Nat,
      l.foldl (fun acc p => if p.1 % 2 = 0 then acc + digitVal p.2 else acc + digitVal p.2 * 3) acc
      = acc + (l.map (fun p => if p.1 % 2 = 0 then digitVal p.2 else 3 * digitVal p.2)).sum := by
  induction l with
  | nil => intro acc; simp
  | cons p t ih =>
      intro acc
      simp only [List.foldl_cons, List.map_cons, List.sum_cons]
      by_cases hp : p.1 % 2 = 0
      · rw [if_pos hp, if_pos hp, ih]; omega
      · rw [if_neg hp, if_neg hp, ih]; omega

theorem ean13CheckFromSum_eq (s : Nat) : ean13CheckFromSum s = (10 - s % 10) % 10 := by
  unfold ean13CheckFromSum
  have hm : s % 10 < 10 := Nat.mod_lt _ (by omega)
  by_cases h0 : s % 10 = 0
  · simp [h0]
  · rw [if_neg h0]; omega

/-- On 12 ASCII digits the checksum function succeeds and returns the spec
formula's value. -/
theorem compute_ok (digits : List Char) (h12 : digits.length = 12)
    (hd : digits.all isAsciiDigit = true) :
    compute_ean13_checksum digits = .ok (specEan13CheckDigit digits) := by
  unfold compute_ean13_checksum specEan13CheckDigit specWeightedSum
  rw [if_neg (by simp [h12, hd])]
  rw [checksum_foldl_eq, Nat.zero_add, ean13CheckFromSum_eq]

/-- The check digit value is at most 9. -/
theorem specCheckDigit_le_9 (digits : List Char) : specEan13CheckDigit digits ≤ 9 := by
  unfold specEan13CheckDigit
  have := Nat.mod_lt (10 - specWeightedSum digits % 10) (show 0 < 10 by omega)
  omega

theorem all_digits_filter (code : List Char) :
    (code.filter isAsciiDigit).all isAsciiDigit = true := by
  rw [List.all_eq_true]
  intro a ha
  exact (List.mem_filter.mp ha).2

theorem all_digits_take (l : List Char) (n : Nat) (h : l.all isAsciiDigit = true) :
    (l.take n).all isAsciiDigit = true := by
  rw [List.all_eq_true] at h ⊢
  intro a ha
  exact h a (List.take_subset _ _ ha)

/-- `'0' + c` for a digit value `c ≤ 9` is an ASCII digit with value `c`. -/
theorem digit_char_spec (c : Nat) (hc : c ≤ 9) :
    isAsciiDigit (Char.ofNat (48 + c)) = true ∧ digitVal (Char.ofNat (48 + c)) = c := by
  interval_cases c <;> exact ⟨rfl, rfl⟩

theorem filter_eq_self_of_all (l : List Char) (h : l.all isAsciiDigit = true) :
    l.filter isAsciiDigit = l := by
  rw [List.all_eq_true] at h
  exact List.filter_eq_self.mpr h

end Barcode
end ZebraEpl

namespace ZebraEpl
namespace Barcode

/-- **C1.** `normalize_ean13` first drops every non-ASCII-digit character;
with exactly 12 digits remaining it appends the computed check digit and
succeeds with a 13-digit string; with exactly 13 digits it recomputes the
check digit from the first 12 and returns the digits unchanged when it equals
the 13th digit, failing with the checksum-mismatch error (`"invalid
checksum"`) otherwise; any other remaining digit count fails with the
invalid-length error (`"barcode must have 12 or 13 digits"`). -/
theorem normalize_ean13_case_analysis (code : List Char) :
    ((code.filter isAsciiDigit).length = 12 →
      normalize_ean13 code
        = .ok (code.filter isAsciiDigit
            ++ [Char.ofNat (48 + specEan13CheckDigit (code.filter isAsciiDigit))])
      ∧ (code.filter isAsciiDigit
            ++ [Char.ofNat (48 + specEan13CheckDigit (code.filter isAsciiDigit))]).length = 13)
    ∧ ((code.filter isAsciiDigit).length = 13 →
      (specEan13CheckDigit ((code.filter isAsciiDigit).take 12)
          = digitVal ((code.filter isAsciiDigit).getD 12 'a') →
        normalize_ean13 code = .ok (code.filter isAsciiDigit))
      ∧ (specEan13CheckDigit ((code.filter isAsciiDigit).take 12)
          ≠ digitVal ((code.filter isAsciiDigit).getD 12 'a') →
        normalize_ean13 code = .error "invalid checksum"))
    ∧ ((code.filter isAsciiDigit).length ≠ 12 → (code.filter isAsciiDigit).length ≠ 13 →
      normalize_ean13 code = .error "barcode must have 12 or 13 digits") := by
  have hall := all_digits_filter code
  refine ⟨fun h12 => ?_, fun h13 => ?_, fun h12 h13 => ?_⟩
  · have hc := compute_ok _ h12 hall
    constructor
    · simp only [normalize_ean13]
      rw [if_pos h12, hc]
    · simp [h12]
  · have htake : ((code.filter isAsciiDigit).take 12).length = 12 := by
      simp [List.length_take, h13]
    have hc := compute_ok _ htake (all_digits_take _ _ hall)
    constructor
    · intro heq
      simp only [normalize_ean13]
      rw [if_neg (by omega), if_pos h13, hc]
      simp [heq]
    · intro hne
      simp only [normalize_ean13]
      rw [if_neg (by omega), if_pos h13, hc]
      simp only [List.getD, List.get?_eq_getElem?] at hne
      simp [hne]
  · simp only [normalize_ean13]
    rw [if_neg h12, if_neg h13]

theorem normalize_ean13_case_analysis_witness :
    normalize_ean13 (chars "4006381333931") = .ok (chars "4006381333931") := by
  have h := (normalize_ean13_case_analysis (chars "4006381333931")).2.1 (by rfl)
  have := h.1 (by rfl)
  simpa using this

/-- **C2.** The check digit computed by the codec on any 12-digit string
equals the spec formula `(10 - (sum mod 10)) mod 10` with weight 1 at even
indices and weight 3 at odd indices; in particular
`normalize_ean13 "400638133393" = Ok "4006381333931"`. -/
theorem checksum_matches_spec_formula :
    (∀ digits : List Char, digits.length = 12 → digits.all isAsciiDigit = true →
      compute_ean13_checksum digits = .ok (specEan13CheckDigit digits))
    ∧ normalize_ean13 (chars "400638133393") = .ok (chars "4006381333931") :=
  ⟨compute_ok, rfl⟩

theorem checksum_matches_spec_formula_witness :
    compute_ean13_checksum (chars "400638133393")
      = .ok (specEan13CheckDigit (chars "400638133393")) :=
  checksum_matches_spec_formula.1 (chars "400638133393") (by rfl) (by rfl)

/-- **C3.** For every string of exactly 12 ASCII digits, `normalize_ean13`
succeeds with a 13-digit string `s`, and applying `normalize_ean13` to `s`
succeeds again and returns `s` unchanged. -/
theorem normalize_ean13_roundtrip (ds : List Char) (h12 : ds.length = 12)
    (hd : ds.all isAsciiDigit = true) :
    ∃ s, normalize_ean13 ds = .ok s ∧ s.length = 13 ∧ normalize_ean13 s = .ok s := by
  have hfilter : ds.filter isAsciiDigit = ds := filter_eq_self_of_all ds hd
  have hc := compute_ok ds h12 hd
  have hle := specCheckDigit_le_9 ds
  obtain ⟨hdig, hval⟩ := digit_char_spec (specEan13CheckDigit ds) hle
  refine ⟨ds ++ [Char.ofNat (48 + specEan13CheckDigit ds)], ?_, ?_, ?_⟩
  · simp only [normalize_ean13]
    rw [hfilter, if_pos h12, hc]
  · simp [h12]
  · have hall₂ : (ds ++ [Char.ofNat (48 + specEan13CheckDigit ds)]).all isAsciiDigit = true := by
      rw [List.all_append, hd]
      simp [hdig]
    have hfilter₂ := filter_eq_self_of_all _ hall₂
    have hlen₂ : (ds ++ [Char.ofNat (48 + specEan13CheckDigit ds)]).length = 13 := by simp [h12]
    have htake : (ds ++ [Char.ofNat (48 + specEan13CheckDigit ds)]).take 12 = ds := by
      rw [← h12, List.take_left]
    have hgetD : (ds ++ [Char.ofNat (48 + specEan13CheckDigit ds)]).getD 12 'a'
        = Char.ofNat (48 + specEan13CheckDigit ds) := by
      rw [List.getD_append_right _ _ _ _ (by omega), h12]
      rfl
    simp only [normalize_ean13]
    rw [hfilter₂, if_neg (by omega), if_pos hlen₂, htake, hc, hgetD, hval]
    simp

theorem normalize_ean13_roundtrip_witness :
    ∃ s, normalize_ean13 (chars "400638133393") = .ok s ∧ s.length = 13
      ∧ normalize_ean13 s = .ok s :=
  normalize_ean13_roundtrip (chars "400638133393") (by rfl) (by rfl)

end Barcode
end ZebraEpl

namespace ZebraEpl
namespace Epl

/-- A monochrome bitmap as consumed by `image_to_row_bytes`
(`ImageBuffer<Luma<u8>, _>`): a width, a height, and the luma value of each
pixel (`get_pixel(x, y).0[0]`).  Rendering (the external glyph engine) is
out of scope, so images enter the model as values of this type. -/
structure Img where
  width : Nat
  height : Nat
  pixel : Nat → Nat → Nat

/-- `(w + 7) / 8`, the row length in bytes. -/
def bytesPerRow (w : Nat) : Nat := (w + 7) / 8

/-- A pixel is ink (black) iff its luma value is `< 128`. -/
def isInk (img : Img) (x y : Nat) : Bool := decide (img.pixel x y < 128)

/-- `out[idx] |= 1 << pos` on the byte vector. -/
def setBit (out : List Nat) (idx pos : Nat) : List Nat :=
  out.set idx (out.getD idx 0 ||| (1 <<< pos))

/-- One iteration of the packing loop body for the pixel `(y, x) = p`:
`if black { out[y*bpr + x/8] |= 1 << (7 - x%8) }`. -/
def blitStep (img : Img) (bpr : Nat) (acc : List Nat) (p : Nat × Nat) : List Nat :=
  if isInk img p.2 p.1 then setBit acc (p.1 * bpr + p.2 / 8) (7 - p.2 % 8) else acc

/-- The inner `for x in 0..w` loop of `image_to_row_bytes` for row `y`. -/
def packRow (img : Img) (bpr y : Nat) (out : List Nat) : List Nat :=
  ((List.range img.width).map (fun x => (y, x))).foldl (blitStep img bpr) out

/-- The nested `for y in 0..h { for x in 0..w { ... } }` loops of
`image_to_row_bytes` (src/epl.rs lines 16-27), starting from `vec![0u8; bpr*h]`. -/
def packBits (img : Img) : List Nat :=
  (List.range img.height).foldl (fun acc y => packRow img (bytesPerRow img.width) y acc)
    (List.replicate (bytesPerRow img.width * img.height) 0)

/-- `!b` on a `u8` byte: bitwise complement. -/
def u8not (b : Nat) : Nat := (b % 256) ^^^ 255

/-- `INVERT_BITS` (src/consts.rs line 14 and src/lib.rs line 27): both true. -/
def INVERT_BITS : Bool := true

/-- Embeds `image_to_row_bytes` (src/epl.rs lines 13-32 and the identical
copy in src/lib.rs lines 380-395), with the `INVERT_BITS` configuration
constant as a parameter so that the packing can be observed before and after
the final inversion pass. -/
def image_to_row_bytes (invert : Bool) (img : Img) : Nat × Nat × List Nat :=
  (img.width, img.height, if invert then (packBits img).map u8not else packBits img)

/-- All `(y, x)` pixel coordinates in loop order. -/
def allPairs (w h : Nat) : List (Nat × Nat) :=
  (List.range h).flatMap (fun y => (List.range w).map (fun x => (y, x)))

theorem getD_set_self (l : List Nat) (i a : Nat) (h : i < l.length) :
    (l.set i a).getD i 0 = a := by
  simp [List.getD_eq_getElem?_getD, List.getElem?_set, h]

theorem getD_set_ne (l : List Nat) (i j a : Nat) (h : i ≠ j) :
    (l.set i a).getD j 0 = l.getD j 0 := by
  simp [List.getD_eq_getElem?_getD, List.getElem?_set, h]

theorem setBit_length (out : List Nat) (idx pos : Nat) :
    (setBit out idx pos).length = out.length := by
  simp [setBit]

theorem blitStep_length (img : Img) (bpr : Nat) (acc : List Nat) (p : Nat × Nat) :
    (blitStep img bpr acc p).length = acc.length := by
  unfold blitStep
  split
  · exact setBit_length _ _ _
  · rfl

theorem foldPairs_length (img : Img) (bpr : Nat) :
    ∀ (ps : List (Nat × Nat)) (out : List Nat),
      (ps.foldl (blitStep img bpr) out).length = out.length := by
  intro ps
  induction ps with
  | nil => intro out; rfl
  | cons p t ih =>
      intro out
      rw [List.foldl_cons, ih, blitStep_length]

/-- The bit written by one `blitStep`. -/
theorem blitStep_testBit (img : Img) (bpr : Nat) (out : List Nat) (p : Nat × Nat)
    (i pos : Nat) (hlt : p.1 * bpr + p.2 / 8 < out.length) :
    ((blitStep img bpr out p).getD i 0).testBit pos
      = (((out.getD i 0).testBit pos)
          || (isInk img p.2 p.1 && decide (p.1 * bpr + p.2 / 8 = i)
              && decide (7 - p.2 % 8 = pos))) := by
  unfold blitStep
  by_cases hq : isInk img p.2 p.1
  · rw [if_pos hq, hq]
    by_cases hfi : p.1 * bpr + p.2 / 8 = i
    · rw [setBit, ← hfi, getD_set_self _ _ _ hlt, Nat.testBit_or, Nat.one_shiftLeft,
        Nat.testBit_two_pow]
      simp [hfi]
    · rw [setBit, getD_set_ne _ _ _ _ hfi]
      simp [hfi]
  · rw [if_neg hq]
    have hq' : isInk img p.2 p.1 = false := by
      revert hq; cases isInk img p.2 p.1 <;> simp
    simp [hq']

/-- Folding the packing step over any list of pixel coordinates sets exactly
the bits demanded by the ink pixels among them. -/
theorem foldPairs_testBit (img : Img) (bpr : Nat) :
    ∀ (ps : List (Nat × Nat)) (out : List Nat) (i pos : Nat),
      (∀ p ∈ ps, p.1 * bpr + p.2 / 8 < out.length) →
      ((ps.foldl (blitStep img bpr) out).getD i 0).testBit pos
        = (((out.getD i 0).testBit pos)
            || ps.any (fun p => isInk img p.2 p.1 && decide (p.1 * bpr + p.2 / 8 = i)
                && decide (7 - p.2 % 8 = pos))) := by
  intro ps
  induction ps with
  | nil => intro out i pos _; simp
  | cons q t ih =>
      intro out i pos h
      rw [List.foldl_cons, List.any_cons,
        ih (blitStep img bpr out q) i pos
          (by
            intro p hp
            rw [blitStep_length]
            exact h p (List.mem_cons_of_mem _ hp)),
        blitStep_testBit img bpr out q i pos (h q (List.mem_cons_self _ _)),
        Bool.or_assoc]

theorem packRow_eq (img : Img) (bpr y : Nat) (out : List Nat) :
    packRow img bpr y out
      = ((List.range img.width).map (fun x => (y, x))).foldl (blitStep img bpr) out := rfl

theorem packBits_eq (img : Img) :
    packBits img
      = (allPairs img.width img.height).foldl (blitStep img (bytesPerRow img.width))
          (List.replicate (bytesPerRow img.width * img.height) 0) := by
  unfold packBits allPairs
  generalize (List.replicate (bytesPerRow img.width * img.height) (0 : Nat)) = out
  induction (List.range img.height) generalizing out with
  | nil => rfl
  | cons y ys ih =>
      rw [List.foldl_cons, List.flatMap_cons, List.foldl_append, ih, packRow_eq]

theorem packBits_length (img : Img) :
    (packBits img).length = bytesPerRow img.width * img.height := by
  rw [packBits_eq, foldPairs_length, List.length_replicate]

theorem getD_replicate_zero (n i : Nat) : (List.replicate n (0 : Nat)).getD i 0 = 0 := by
  rw [List.getD_eq_getElem?_getD, List.getElem?_replicate]
  split <;> rfl

theorem div8_lt_bytesPerRow (x w : Nat) (h : x < w) : x / 8 < bytesPerRow w := by
  unfold bytesPerRow
  omega

theorem pack_index_lt (bpr h y x : Nat) (hy : y < h) (hx : x / 8 < bpr) :
    y * bpr + x / 8 < bpr * h := by
  have h1 : y * bpr + x / 8 < (y + 1) * bpr := by
    rw [Nat.succ_mul]
    omega
  have h2 : (y + 1) * bpr ≤ h * bpr := Nat.mul_le_mul_right _ hy
  rw [Nat.mul_comm bpr h]
  omega

/-- Uniqueness of the (byte index, bit position) pair: within a fixed byte
layout, two pixels that write the same bit are the same pixel. -/
theorem pack_index_inj (bpr y' x' y x : Nat) (h1 : x' / 8 < bpr) (h2 : x / 8 < bpr)
    (hidx : y' * bpr + x' / 8 = y * bpr + x / 8) (hpos : 7 - x' % 8 = 7 - x % 8) :
    y' = y ∧ x' = x := by
  have hbpr : 0 < bpr := by omega
  have e1 : (bpr * y' + x' / 8) / bpr = y' := by
    rw [Nat.mul_add_div hbpr, Nat.div_eq_of_lt h1, Nat.add_zero]
  have e2 : (bpr * y + x / 8) / bpr = y := by
    rw [Nat.mul_add_div hbpr, Nat.div_eq_of_lt h2, Nat.add_zero]
  rw [Nat.mul_comm y' bpr, Nat.mul_comm y bpr] at hidx
  have hy : y' = y := by rw [← e1, ← e2, hidx]
  subst hy
  have hdiv : x' / 8 = x / 8 := by omega
  constructor
  · rfl
  · omega

theorem mem_allPairs (w h : Nat) (p : Nat × Nat) :
    p ∈ allPairs w h ↔ p.1 < h ∧ p.2 < w := by
  unfold allPairs
  rw [List.mem_flatMap]
  constructor
  · rintro ⟨y, hy, hp⟩
    obtain ⟨x, hx, rfl⟩ := List.mem_map.mp hp
    exact ⟨List.mem_range.mp hy, List.mem_range.mp hx⟩
  · rintro ⟨h1, h2⟩
    exact ⟨p.1, List.mem_range.mpr h1,
      List.mem_map.mpr ⟨p.2, List.mem_range.mpr h2, rfl⟩⟩

/-- The core bit-semantics of the packing loop: in the packed bytes, byte
`y * bpr + x/8`, bit `7 - x%8` holds exactly the ink state of pixel `(x, y)`. -/
theorem packBits_testBit (img : Img) (x y : Nat) (hx : x < img.width)
    (hy : y < img.height) :
    ((packBits img).getD (y * bytesPerRow img.width + x / 8) 0).testBit (7 - x % 8)
      = isInk img x y := by
  rw [packBits_eq, foldPairs_testBit img (bytesPerRow img.width) _ _ _ _
    (by
      rintro ⟨y', x'⟩ hp
      obtain ⟨hy', hx'⟩ := (mem_allPairs _ _ _).mp hp
      rw [List.length_replicate]
      exact pack_index_lt _ _ _ _ hy' (div8_lt_bytesPerRow _ _ hx')),
    getD_replicate_zero, Nat.zero_testBit, Bool.false_or]
  cases hInk : isInk img x y with
  | true =>
      rw [List.any_eq_true]
      refine ⟨(y, x), (mem_allPairs _ _ _).mpr ⟨hy, hx⟩, ?_⟩
      simp [hInk]
  | false =>
      rw [Bool.eq_false_iff]
      intro hany
      obtain ⟨⟨y', x'⟩, hmem, hp⟩ := List.any_eq_true.mp hany
      obtain ⟨hy', hx'⟩ := (mem_allPairs _ _ _).mp hmem
      simp only [Bool.and_eq_true, decide_eq_true_eq] at hp
      obtain ⟨⟨hink, hidx⟩, hpos⟩ := hp
      obtain ⟨rfl, rfl⟩ := pack_index_inj _ _ _ _ _
        (div8_lt_bytesPerRow _ _ hx') (div8_lt_bytesPerRow _ _ hx) hidx hpos
      rw [hInk] at hink
      exact Bool.false_ne_true hink

/-- The 9×1 sample bitmap from the spec: the first 8 pixels ink, the 9th not. -/
def sampleImg9 : Img := ⟨9, 1, fun x _ => if x < 8 then 0 else 255⟩

end Epl
end ZebraEpl

namespace ZebraEpl
namespace Epl

/-- **C4.** `image_to_row_bytes` produces exactly `h * ceil(w/8)` bytes;
before inversion, bit `7 - x%8` of byte `y*bpr + x/8` is 1 exactly when
pixel `(x, y)` is ink; with inversion configured every byte is
bitwise-complemented after packing; and the 9×1 sample bitmap packs to
`[0xFF, 0x00]` before inversion and `[0x00, 0xFF]` after. -/
theorem image_to_row_bytes_spec :
    (∀ (invert : Bool) (img : Img),
        ((image_to_row_bytes invert img).2.2).length = img.height * bytesPerRow img.width)
    ∧ (∀ (img : Img) (x y : Nat), x < img.width → y < img.height →
        (((image_to_row_bytes false img).2.2).getD
            (y * bytesPerRow img.width + x / 8) 0).testBit (7 - x % 8)
          = isInk img x y)
    ∧ (∀ img : Img, (image_to_row_bytes true img).2.2
          = ((image_to_row_bytes false img).2.2).map u8not)
    ∧ image_to_row_bytes false sampleImg9 = (9, 1, [255, 0])
    ∧ image_to_row_bytes true sampleImg9 = (9, 1, [0, 255]) := by
  refine ⟨?_, ?_, ?_, ?_, ?_⟩
  · intro invert img
    cases invert <;>
      simp [image_to_row_bytes, packBits_length, Nat.mul_comm]
  · intro img x y hx hy
    exact packBits_testBit img x y hx hy
  · intro img
    rfl
  · rfl
  · rfl

theorem image_to_row_bytes_spec_witness :
    (((image_to_row_bytes false sampleImg9).2.2).getD
        (0 * bytesPerRow sampleImg9.width + 8 / 8) 0).testBit (7 - 8 % 8)
      = isInk sampleImg9 8 0 :=
  image_to_row_bytes_spec.2.1 sampleImg9 8 0 (by decide) (by decide)

end Epl
end ZebraEpl

namespace ZebraEpl

/-- One visual-order run produced by the external `unicode_bidi` primitive
(`info.visual_runs`): its resolved level's direction and the text slice it
covers.  The bidi algorithm itself is the out-of-scope collaborator, so runs
enter the model as values. -/
structure Run where
  rtl : Bool
  txt : List Char

/-- The Arabic-block test from src/lib.rs line 275:
`c >= '\u{0600}' && c <= '\u{06FF}'`. -/
def isArabicChar (c : Char) : Bool := 0x600 ≤ c.toNat && c.toNat ≤ 0x6FF

namespace Lib

/-- Per-run step of `bidi_then_shape` in src/lib.rs (lines 269-286): RTL runs
are reshaped, and reversed afterwards only when the run contains a character
of the Arabic block; LTR runs are appended unchanged.  The external
`ar_reshaper` primitive is the `reshape` parameter. -/
def runStep (reshape : List Char → List Char) (out : List Char) (r : Run) : List Char :=
  if r.rtl then
    if r.txt.any isArabicChar then out ++ (reshape r.txt).reverse
    else out ++ reshape r.txt
  else out ++ r.txt

/-- Embeds `bidi_then_shape` from src/lib.rs (lines 262-288) over the
resolved visual-order runs. -/
def bidi_then_shape (reshape : List Char → List Char) (runs : List Run) : List Char :=
  runs.foldl (runStep reshape) []

end Lib

namespace Graphics

/-- Per-run step of `bidi_then_shape` in src/graphics.rs (lines 19-26): RTL
runs are reshaped and appended — never reversed; LTR runs are appended
unchanged. -/
def runStep (reshape : List Char → List Char) (out : List Char) (r : Run) : List Char :=
  if r.rtl then out ++ reshape r.txt else out ++ r.txt

/-- Embeds `bidi_then_shape` from src/graphics.rs (lines 8-28). -/
def bidi_then_shape (reshape : List Char → List Char) (runs : List Run) : List Char :=
  runs.foldl (runStep reshape) []

end Graphics

/-- **C6.** The block-membership-gated reversal does NOT hold for every
bidi/shaping entry point: on a right-to-left run of Arabic-block characters
(here the identity standing in for the external reshaper, run text "اب"),
the `graphics.rs` variant appends the shaped run unreversed while the gated
policy — implemented by the `lib.rs` variant and demanded by the claim —
reverses it; the two entry points disagree on this input. -/
theorem graphics_bidi_ungated_counterexample :
    Graphics.bidi_then_shape id [⟨true, chars "اب"⟩] = chars "اب"
    ∧ Lib.bidi_then_shape id [⟨true, chars "اب"⟩] = (chars "اب").reverse
    ∧ Graphics.bidi_then_shape id [⟨true, chars "اب"⟩]
        ≠ Lib.bidi_then_shape id [⟨true, chars "اب"⟩] := by
  refine ⟨by decide, by decide, by decide⟩

/-- The `lib.rs` entry point does satisfy the gated contract on every run
list: RTL runs are reshaped and reversed exactly when they contain an
Arabic-block character. -/
theorem lib_bidi_gated (reshape : List Char → List Char) (out : List Char) (r : Run) :
    Lib.runStep reshape out r
      = if r.rtl then
          (if r.txt.any isArabicChar then out ++ (reshape r.txt).reverse
           else out ++ reshape r.txt)
        else out ++ r.txt := rfl

theorem fold_runStep_empty_lib (reshape : List Char → List Char) (hsh : reshape [] = []) :
    ∀ (runs : List Run) (out : List Char), (∀ r ∈ runs, r.txt = []) →
      runs.foldl (Lib.runStep reshape) out = out := by
  intro runs
  induction runs with
  | nil => intro out _; rfl
  | cons r t ih =>
      intro out h
      have hr : r.txt = [] := h r (List.mem_cons_self _ _)
      rw [List.foldl_cons, ih _ (fun q hq => h q (List.mem_cons_of_mem _ hq))]
      unfold Lib.runStep
      rw [hr, hsh]
      simp

theorem fold_runStep_empty_graphics (reshape : List Char → List Char) (hsh : reshape [] = []) :
    ∀ (runs : List Run) (out : List Char), (∀ r ∈ runs, r.txt = []) →
      runs.foldl (Graphics.runStep reshape) out = out := by
  intro runs
  induction runs with
  | nil => intro out _; rfl
  | cons r t ih =>
      intro out h
      have hr : r.txt = [] := h r (List.mem_cons_self _ _)
      rw [List.foldl_cons, ih _ (fun q hq => h q (List.mem_cons_of_mem _ hq))]
      unfold Graphics.runStep
      rw [hr, hsh]
      simp

/-- **C9.** Bidi/shaping resolution applied to the empty string returns the
empty shaped string in both entry points: the runs resolved for empty input
cover only empty slices (modelled per the spec's interface for the external
bidi primitive), and the external reshaper maps the empty string to itself. -/
theorem bidi_then_shape_empty (reshape : List Char → List Char) (runs : List Run)
    (hruns : ∀ r ∈ runs, r.txt = []) (hsh : reshape [] = []) :
    Lib.bidi_then_shape reshape runs = []
    ∧ Graphics.bidi_then_shape reshape runs = [] :=
  ⟨fold_runStep_empty_lib reshape hsh runs [] hruns,
   fold_runStep_empty_graphics reshape hsh runs [] hruns⟩

theorem bidi_then_shape_empty_witness :
    Lib.bidi_then_shape id ([] : List Run) = []
    ∧ Graphics.bidi_then_shape id ([] : List Run) = [] :=
  bidi_then_shape_empty id [] (by intro r hr; cases hr) rfl

/-! ### Machine-integer helpers

Rust `u32`/`i32` arithmetic where the source can wrap.  Overflow semantics
are those of release builds (two's-complement wrap-around); debug builds
panic at the same inputs. -/

/-- `2^32`. -/
def U32 : Nat := 4294967296

/-- Truncation to `u32`. -/
def u32of (n : Nat) : Nat := n % U32

/-- Wrapping `u32` subtraction `a - b`. -/
def u32wsub (a b : Nat) : Nat := (u32of a + (U32 - u32of b)) % U32

/-- Wrapping `u32` multiplication `a * b`. -/
def u32wmul (a b : Nat) : Nat := (a * b) % U32

/-- `n as i32`: reinterpretation of the low 32 bits as a signed value. -/
def i32of (n : Nat) : Int :=
  if u32of n < 2147483648 then (u32of n : Int) else (u32of n : Int) - (U32 : Int)

/-- Wrap an integer into the `i32` range (two's-complement overflow). -/
def i32w (z : Int) : Int := (z + 2147483648) % (U32 : Int) - 2147483648

end ZebraEpl

namespace ZebraEpl

namespace Builder

/-- Embeds `center_x_for_ean13` (src/builder.rs lines 14-18): `i32`
arithmetic, truncating division, clamped at 0, cast back to `u32`. -/
def center_x_for_ean13 (label_w narrow : Nat) : Nat :=
  (max (Int.tdiv (i32w (i32of label_w - i32w (95 * i32of narrow))) 2) 0).toNat

end Builder

namespace Lib

/-- Embeds `center_x_for_ean13_single` (src/lib.rs lines 404-407): plain
`u32` arithmetic — the subtraction `label_w - 95*narrow` wraps (release) or
panics (debug) when the region is narrower than the barcode. -/
def center_x_for_ean13_single (label_w narrow : Nat) : Nat :=
  u32wsub label_w (u32wmul 95 narrow) / 2

/-- Embeds `center_x_for_ean13_column` (src/lib.rs lines 409-412), identical
to the single-label variant. -/
def center_x_for_ean13_column (column_w narrow : Nat) : Nat :=
  u32wsub column_w (u32wmul 95 narrow) / 2

end Lib

theorem i32w_eq_self (z : Int) (h1 : -2147483648 ≤ z) (h2 : z < 2147483648) :
    i32w z = z := by
  unfold i32w U32
  omega

theorem i32of_eq_self (n : Nat) (h : n < 2147483648) : i32of n = (n : Int) := by
  unfold i32of u32of U32
  rw [Nat.mod_eq_of_lt (by omega)]
  rw [if_pos h]

theorem tdiv_ofNat_two (m : Nat) : Int.tdiv (m : Int) 2 = ((m / 2 : Nat) : Int) := rfl

/-- **C7 counterexample.** At region width 100 and module width 2 (region
narrower than the 190-dot barcode), `center_x_for_ean13_single` does not
return the claimed clamped value `max(0, (100-190)/2) = 0`: the `u32`
subtraction wraps and yields 2147483603 (debug builds panic instead). -/
theorem center_x_single_wraps_counterexample :
    Lib.center_x_for_ean13_single 100 2 ≠ (max 0 (((100 : Int) - 95 * 2) / 2)).toNat
    ∧ Lib.center_x_for_ean13_single 100 2 = 2147483603 := by
  constructor
  · decide
  · decide

/-- **C7 (amended).** The builder.rs centering function returns
`max(0, (R - 95*narrow)/2)` for all in-range `i32` inputs; the lib.rs
variants compute `(R - 95*narrow)/2` with unchecked `u32` subtraction, which
agrees with that formula only when `R ≥ 95*narrow`; concretely all of them
map (440, 2) to 125. -/
theorem center_x_for_ean13_formula :
    (∀ R narrow : Nat, R < 2147483648 → 95 * narrow < 2147483648 →
        Builder.center_x_for_ean13 R narrow
          = if 95 * narrow ≤ R then (R - 95 * narrow) / 2 else 0)
    ∧ (∀ R narrow : Nat, R < 4294967296 → 95 * narrow ≤ R →
        Lib.center_x_for_ean13_single R narrow = (R - 95 * narrow) / 2
        ∧ Lib.center_x_for_ean13_column R narrow = (R - 95 * narrow) / 2)
    ∧ Builder.center_x_for_ean13 440 2 = 125
    ∧ Lib.center_x_for_ean13_single 440 2 = 125
    ∧ Lib.center_x_for_ean13_column 440 2 = 125 := by
  refine ⟨?_, ?_, by decide, by decide, by decide⟩
  · intro R narrow hR hN
    have hnarrow : narrow < 2147483648 := by omega
    unfold Builder.center_x_for_ean13
    rw [i32of_eq_self R hR, i32of_eq_self narrow hnarrow,
      i32w_eq_self (95 * (narrow : Int)) (by omega) (by omega),
      i32w_eq_self ((R : Int) - 95 * narrow) (by omega) (by omega)]
    by_cases hle : 95 * narrow ≤ R
    · rw [if_pos hle]
      have hcast : (R : Int) - 95 * narrow = ((R - 95 * narrow : Nat) : Int) := by omega
      rw [hcast, tdiv_ofNat_two]
      rw [max_eq_left (Int.natCast_nonneg _)]
      exact Int.toNat_natCast _
    · rw [if_neg hle]
      have hneg : (R : Int) - 95 * narrow < 0 := by omega
      have hdiv : Int.tdiv ((R : Int) - 95 * narrow) 2 ≤ 0 := by
        have h0 : (R : Int) - 95 * narrow = -(-((R : Int) - 95 * narrow)) := by ring
        rw [h0, Int.neg_tdiv]
        have := Int.tdiv_nonneg
          (show (0 : Int) ≤ -((R : Int) - 95 * narrow) by omega)
          (show (0 : Int) ≤ 2 by omega)
        omega
      rw [max_eq_right hdiv]
      rfl
  · intro R narrow hR hle
    have hN : 95 * narrow < 4294967296 := by omega
    unfold Lib.center_x_for_ean13_single Lib.center_x_for_ean13_column u32wsub u32wmul u32of U32
    constructor <;> (congr 1; omega)

theorem center_x_for_ean13_formula_witness :
    Builder.center_x_for_ean13 440 2 = if 95 * 2 ≤ 440 then (440 - 95 * 2) / 2 else 0 :=
  center_x_for_ean13_formula.1 440 2 (by decide) (by decide)

end ZebraEpl

namespace ZebraEpl
namespace Lib

/-- Measured layout of one name/price pair as reported by the external glyph
engine (`rusttype`), the out-of-scope collaborator of
`render_name_price_space_between`: the tight pixel width of the laid-out
price text and name text (rightmost pixel bound, so every ink x-coordinate is
below it), the line height (`max(ascent - descent, 30)`), and the ink pixel
coordinates of each text laid out at the origin. -/
structure GlyphData where
  price_w : Nat
  name_w_full : Nat
  line_h : Nat
  priceInk : List (Nat × Nat)
  nameInk : List (Nat × Nat)

/-- The paint passes: `&[(0,0),(1,0)]` when bold, `&[(0,0)]` otherwise
(x-offsets only; the y-offsets are all 0). -/
def offsets (bold : Bool) : List Nat := if bold then [0, 1] else [0]

/-- `available_for_name = max_width.saturating_sub(price_w + min_gap +
left_padding)` with `min_gap = 10`, `left_padding = 5`
(src/lib.rs line 331). -/
def npsAvailableForName (g : GlyphData) (max_width : Nat) : Nat :=
  max_width - (g.price_w + 10 + 5)

/-- `name_w = name_w_full.min(available_for_name)` (src/lib.rs line 332). -/
def npsNameW (g : GlyphData) (max_width : Nat) : Nat :=
  min g.name_w_full (npsAvailableForName g max_width)

/-- `name_x = total_w - name_w` (src/lib.rs line 355; never underflows since
`name_w ≤ available_for_name ≤ max_width`). -/
def npsNameX (g : GlyphData) (max_width : Nat) : Nat :=
  max_width - npsNameW g max_width

/-- The composite canvas painted by `render_name_price_space_between`
(src/lib.rs lines 334-368): width `total_w = max_width`, white background,
price glyph pixels at `x + left_padding (+ bold offset)`, name glyph pixels
at `x + name_x`; writes outside the canvas are dropped by the
`px < total_w && py < line_h` guard, which the canvas bounds model. -/
def npsImg (g : GlyphData) (max_width : Nat) (bold : Bool) : Epl.Img where
  width := max_width
  height := g.line_h
  pixel := fun x y =>
    if (offsets bold).any (fun dx =>
          g.priceInk.any (fun p => p.1 + 5 + dx == x && p.2 == y))
        || g.nameInk.any (fun p => p.1 + npsNameX g max_width == x && p.2 == y)
    then 0 else 255

/-- Embeds `render_name_price_space_between` (src/lib.rs lines 293-371):
paint the composite image and pack it with `image_to_row_bytes` under
`INVERT_BITS`. -/
def render_name_price_space_between (g : GlyphData) (max_width : Nat) (bold : Bool) :
    Nat × Nat × List Nat :=
  Epl.image_to_row_bytes Epl.INVERT_BITS (npsImg g max_width bold)

/-- Claim-side reading of "price glyphs are never clipped": every ink pixel
of the laid-out price lands inside the emitted composite bitmap and its bit
is painted there (the output is inverted, so painted ink is bit 0). -/
def pricePaintedB (g : GlyphData) (max_width : Nat) (bold : Bool) : Bool :=
  g.priceInk.all (fun p => (offsets bold).all (fun dx =>
    decide (p.1 + 5 + dx < max_width) && decide (p.2 < g.line_h) &&
    !((((render_name_price_space_between g max_width bold).2.2).getD
        (p.2 * Epl.bytesPerRow max_width + (p.1 + 5 + dx) / 8) 0).testBit
        (7 - (p.1 + 5 + dx) % 8))))

/-- A price (width 20, one ink pixel at x=15) in a cell budget of only 10
pixels: the price glyph pixel falls beyond the canvas and is dropped. -/
def clippedPriceG : GlyphData := ⟨20, 0, 30, [(15, 0)], []⟩

/-- A small in-budget configuration used as the witness input. -/
def inBudgetG : GlyphData := ⟨8, 0, 1, [(3, 0)], []⟩

end Lib
end ZebraEpl

namespace ZebraEpl
namespace Lib

theorem u8not_testBit (b pos : Nat) (hpos : pos < 8) :
    (Epl.u8not b).testBit pos = !(b.testBit pos) := by
  unfold Epl.u8not
  rw [(by norm_num : (256 : Nat) = 2 ^ 8), (by norm_num : (255 : Nat) = 2 ^ 8 - 1),
    Nat.testBit_xor, Nat.testBit_mod_two_pow, Nat.testBit_two_pow_sub_one]
  simp [hpos]

theorem getD_map_u8not (l : List Nat) (i : Nat) (h : i < l.length) :
    (l.map Epl.u8not).getD i 0 = Epl.u8not (l.getD i 0) := by
  rw [List.getD_eq_getElem?_getD, List.getD_eq_getElem?_getD, List.getElem?_map]
  rw [List.getElem?_eq_getElem h]
  rfl

/-- **C8 counterexample.** For `clippedPriceG` (a price glyph pixel at x=15,
price width 20) in a cell budget of `max_width = 10`, the price IS clipped:
`pricePaintedB` is false, refuting "price glyphs are never clipped" for every
name, price and cell budget. -/
theorem render_nps_price_clipped_counterexample :
    pricePaintedB clippedPriceG 10 false = false := by decide

/-- **C8 (amended).** The composite bitmap width always equals (hence never
exceeds) `max_width`; the full price width plus its fixed left padding and
the minimum gap is always reserved when computing the name's budget, and the
name's rendered width is clamped to the remaining space when the natural
widths overflow the budget; price glyphs are never clipped provided the price
itself fits the budget (`left_padding + price_w + bold offset ≤ max_width`). -/
theorem render_nps_layout_spec :
    (∀ (g : GlyphData) (max_width : Nat) (bold : Bool),
        (render_name_price_space_between g max_width bold).1 = max_width)
    ∧ (∀ (g : GlyphData) (max_width : Nat),
        npsNameW g max_width = min g.name_w_full (max_width - (g.price_w + 10 + 5)))
    ∧ (∀ (g : GlyphData) (max_width : Nat),
        g.name_w_full + g.price_w + 10 + 5 > max_width →
        npsNameW g max_width = max_width - (g.price_w + 10 + 5))
    ∧ (∀ (g : GlyphData) (max_width : Nat) (bold : Bool),
        (∀ p ∈ g.priceInk, p.1 < g.price_w ∧ p.2 < g.line_h) →
        5 + g.price_w + (if bold then 1 else 0) ≤ max_width →
        pricePaintedB g max_width bold = true) := by
  refine ⟨fun _ _ _ => rfl, fun _ _ => rfl, ?_, ?_⟩
  · intro g mw h
    unfold npsNameW npsAvailableForName
    omega
  · intro g mw bold hink hfit
    unfold pricePaintedB
    rw [List.all_eq_true]
    intro p hp
    rw [List.all_eq_true]
    intro dx hdx
    obtain ⟨hpx, hpy⟩ := hink p hp
    have hX : p.1 + 5 + dx < mw := by
      cases bold
      · simp [offsets] at hdx hfit
        omega
      · simp [offsets] at hdx hfit
        rcases hdx with rfl | rfl <;> omega
    have hpix : (npsImg g mw bold).pixel (p.1 + 5 + dx) p.2 = 0 := by
      unfold npsImg
      dsimp only
      rw [if_pos]
      rw [Bool.or_eq_true]
      left
      rw [List.any_eq_true]
      refine ⟨dx, hdx, ?_⟩
      rw [List.any_eq_true]
      exact ⟨p, hp, by simp⟩
    have hbpr : p.2 * Epl.bytesPerRow mw + (p.1 + 5 + dx) / 8
        < (Epl.packBits (npsImg g mw bold)).length := by
      rw [Epl.packBits_length]
      exact Epl.pack_index_lt _ _ _ _ hpy (Epl.div8_lt_bytesPerRow _ _ hX)
    rw [Bool.and_eq_true, Bool.and_eq_true]
    refine ⟨⟨by simp [hX], by simp [hpy]⟩, ?_⟩
    have hout : (render_name_price_space_between g mw bold).2.2
        = (Epl.packBits (npsImg g mw bold)).map Epl.u8not := rfl
    rw [hout, getD_map_u8not _ _ hbpr, u8not_testBit _ _ (by omega), Bool.not_not]
    have hbit := Epl.packBits_testBit (npsImg g mw bold) (p.1 + 5 + dx) p.2 hX hpy
    rw [show p.2 * Epl.bytesPerRow mw + (p.1 + 5 + dx) / 8
        = p.2 * Epl.bytesPerRow (npsImg g mw bold).width + (p.1 + 5 + dx) / 8 from rfl,
      hbit]
    unfold Epl.isInk
    rw [hpix]
    rfl

theorem render_nps_layout_spec_witness :
    pricePaintedB inBudgetG 16 false = true :=
  render_nps_layout_spec.2.2.2 inBudgetG 16 false (by decide) (by decide)

end Lib
end ZebraEpl

namespace ZebraEpl

/-! ### Protocol encoder

The builders write into one `Vec<u8>` through `epl_line` (ASCII line + CRLF)
and `gw_bytes` (GW header line + raw packed rows + CRLF).  The model keeps
the emitted stream as a list of segments, one per `epl_line`/`gw_bytes`
call, whose byte-level flattening (`flattenSegs`) is the `Vec<u8>`. -/

/-- Decimal rendering of a number, as `format!` produces it. -/
def natChars (n : Nat) : List Char := Nat.toDigits 10 n

/-- UTF-8 encoding of one scalar value (`str::as_bytes`). -/
def utf8Char (c : Char) : List Nat :=
  if c.toNat < 128 then [c.toNat]
  else if c.toNat < 2048 then
    [192 ||| (c.toNat >>> 6), 128 ||| (c.toNat &&& 63)]
  else if c.toNat < 65536 then
    [224 ||| (c.toNat >>> 12), 128 ||| ((c.toNat >>> 6) &&& 63), 128 ||| (c.toNat &&& 63)]
  else
    [240 ||| (c.toNat >>> 18), 128 ||| ((c.toNat >>> 12) &&& 63),
     128 ||| ((c.toNat >>> 6) &&& 63), 128 ||| (c.toNat &&& 63)]

/-- UTF-8 bytes of a string. -/
def strBytes (cs : List Char) : List Nat := (cs.map utf8Char).flatten

/-- One emitted segment: an `epl_line` command line, or one `gw_bytes` image
block carrying `(x, y, w, h)` and the raw packed rows. -/
inductive Seg where
  | line : List Char → Seg
  | gw : Nat → Nat → Nat → Nat → List Nat → Seg
deriving DecidableEq

/-- Bytes of one segment: `epl_line` emits the line plus CRLF (src/epl.rs
lines 6-9); `gw_bytes` emits `GW{x},{y},{bpr},{h}` + CRLF, the raw rows, and
a CRLF (src/epl.rs lines 35-40, identical in src/lib.rs lines 397-402). -/
def segBytes : Seg → List Nat
  | .line cs => strBytes cs ++ [13, 10]
  | .gw x y w h rows =>
      strBytes (chars "GW" ++ natChars x ++ chars "," ++ natChars y ++ chars ","
        ++ natChars (Epl.bytesPerRow w) ++ chars "," ++ natChars h)
      ++ [13, 10] ++ rows ++ [13, 10]

/-- The whole emitted byte stream. -/
def flattenSegs (l : List Seg) : List Nat := (l.map segBytes).flatten

/-- Is this segment a `GW` image block? -/
def isGw : Seg → Bool
  | .gw _ _ _ _ _ => true
  | _ => false

/-- Is this segment a `B` barcode command line? -/
def isBLine : Seg → Bool
  | .line ('B' :: _) => true
  | _ => false

/-- The `B{x},{y},{rot},1,{narrow},{wide},{height},B,"{payload}"` barcode
command of src/builder.rs (lines 58-72). -/
def blineRot (x y rot narrow wide height : Nat) (payload : List Char) : List Char :=
  chars "B" ++ natChars x ++ chars "," ++ natChars y ++ chars "," ++ natChars rot
  ++ chars ",1," ++ natChars narrow ++ chars "," ++ natChars wide ++ chars ","
  ++ natChars height ++ chars ",B,\"" ++ payload ++ chars "\""

/-- The `B{x},{y},0,E30,{narrow},{wide},{height},B,"{payload}"` barcode
command of src/lib.rs (lines 116-123, 239-253). -/
def blineE30 (x y narrow wide height : Nat) (payload : List Char) : List Char :=
  chars "B" ++ natChars x ++ chars "," ++ natChars y ++ chars ",0,E30,"
  ++ natChars narrow ++ chars "," ++ natChars wide ++ chars "," ++ natChars height
  ++ chars ",B,\"" ++ payload ++ chars "\""

end ZebraEpl

namespace ZebraEpl
namespace Epl

theorem image_to_row_bytes_length (invert : Bool) (img : Img) :
    ((image_to_row_bytes invert img).2.2).length = bytesPerRow img.width * img.height := by
  cases invert <;> simp [image_to_row_bytes, packBits_length]

end Epl

namespace Builder

/-- Tuning constants of src/builder.rs (lines 1-9). -/
def LABEL_W : Nat := 440
def LABEL_H : Nat := 320
def PAD_RIGHT : Nat := 10
def DARKNESS : Nat := 5
def SPEED : Nat := 3
def NARROW : Nat := 2
def HEIGHT : Nat := 50
def LANDSCAPE : Bool := false

/-- Embeds `build_two_product_label_clean_centered` (src/builder.rs lines
20-77).  The two product-line bitmaps come from
`render_arabic_line_tight_1bit` (external glyph engine), so they are
parameters `im1`, `im2`; the barcodes are spliced into the `B` commands
verbatim.  `x1`/`x2` use wrapping `u32` subtraction (`LABEL_W - PAD_RIGHT -
w` can underflow for wide bitmaps). -/
def build_two_product_label_clean_centered (im1 im2 : Epl.Img)
    (p1_barcode p2_barcode : List Char) : List Seg :=
  let r1 := Epl.image_to_row_bytes Epl.INVERT_BITS im1
  let r2 := Epl.image_to_row_bytes Epl.INVERT_BITS im2
  let x1 := u32wsub (u32wsub LABEL_W PAD_RIGHT) r1.1
  let x2 := u32wsub (u32wsub LABEL_W PAD_RIGHT) r2.1
  let text1_y := 8
  let bc1_y := text1_y + r1.2.1 + 16
  let text2_y := bc1_y + HEIGHT + 26
  let bc2_y := text2_y + r2.2.1 + 16
  let bx_center := center_x_for_ean13 LABEL_W NARROW
  [Seg.line (chars "N"),
   Seg.line (chars "q" ++ natChars LABEL_W),
   Seg.line (chars "Q" ++ natChars LABEL_H ++ chars ",24"),
   Seg.line (chars "D" ++ natChars DARKNESS),
   Seg.line (chars "S" ++ natChars SPEED)]
  ++ (if !LANDSCAPE then
      [Seg.gw x1 text1_y r1.1 r1.2.1 r1.2.2,
       Seg.line (blineRot bx_center bc1_y 0 NARROW 4 HEIGHT p1_barcode),
       Seg.gw x2 text2_y r2.1 r2.2.1 r2.2.2,
       Seg.line (blineRot bx_center bc2_y 0 NARROW 4 HEIGHT p2_barcode)]
    else
      [Seg.gw text1_y x1 r1.1 r1.2.1 r1.2.2,
       Seg.line (blineRot bc1_y bx_center 1 NARROW 4 HEIGHT p1_barcode),
       Seg.gw text2_y x2 r2.1 r2.2.1 r2.2.2,
       Seg.line (blineRot bc2_y bx_center 1 NARROW 4 HEIGHT p2_barcode)])
  ++ [Seg.line (chars "P1")]

end Builder
end ZebraEpl

namespace ZebraEpl

theorem flattenSegs_cons (s : Seg) (l : List Seg) :
    flattenSegs (s :: l) = segBytes s ++ flattenSegs l := rfl

theorem flattenSegs_last_P1 : ∀ l : List Seg,
    l.getLast? = some (Seg.line (chars "P1")) →
    ∃ p, flattenSegs l = p ++ [80, 49, 13, 10] := by
  intro l
  induction l with
  | nil => intro h; exact absurd h (by simp)
  | cons a t ih =>
      intro h
      cases t with
      | nil =>
          have ha : a = Seg.line (chars "P1") := by simpa using h
          subst ha
          exact ⟨[], rfl⟩
      | cons b t2 =>
          rw [List.getLast?_cons_cons] at h
          obtain ⟨p, hp⟩ := ih h
          exact ⟨segBytes a ++ p, by rw [flattenSegs_cons, hp, List.append_assoc]⟩

/-- **C5.** The two-product label stream: its bytes start with `N\r\n`; the
first five segments are the `N`, `q440`, `Q320,24`, `D5` (darkness) and `S3`
(speed) lines in that order; it contains exactly one `q440` line and exactly
one `Q320,24` line; exactly two `GW` image blocks, each carrying exactly
`bytesPerRow * height` payload bytes followed by a CRLF (by `segBytes`);
exactly two `B` barcode command lines; and it ends with the `P1\r\n` line. -/
theorem build_two_clean_stream_structure (im1 im2 : Epl.Img) (b1 b2 : List Char)
    (segs : List Seg)
    (hsegs : segs = Builder.build_two_product_label_clean_centered im1 im2 b1 b2) :
    (flattenSegs segs).take 3 = [78, 13, 10]
    ∧ segs.take 5 = [Seg.line (chars "N"), Seg.line (chars "q440"),
        Seg.line (chars "Q320,24"), Seg.line (chars "D5"), Seg.line (chars "S3")]
    ∧ List.countP (fun s => decide (s = Seg.line (chars "q440"))) segs = 1
    ∧ List.countP (fun s => decide (s = Seg.line (chars "Q320,24"))) segs = 1
    ∧ List.countP isGw segs = 2
    ∧ (∀ x y w h rows, Seg.gw x y w h rows ∈ segs → rows.length = Epl.bytesPerRow w * h)
    ∧ List.countP isBLine segs = 2
    ∧ segs.getLast? = some (Seg.line (chars "P1"))
    ∧ (∃ p, flattenSegs segs = p ++ [80, 49, 13, 10]) := by
  subst hsegs
  refine ⟨rfl, rfl, rfl, rfl, rfl, ?_, rfl, rfl, flattenSegs_last_P1 _ rfl⟩
  intro x y w h rows hmem
  simp [Builder.build_two_product_label_clean_centered, Builder.LANDSCAPE] at hmem
  rcases hmem with ⟨_, _, rfl, rfl, rfl⟩ | ⟨_, _, rfl, rfl, rfl⟩
  · exact Epl.image_to_row_bytes_length _ _
  · exact Epl.image_to_row_bytes_length _ _

theorem build_two_clean_stream_structure_witness :
    List.countP isBLine (Builder.build_two_product_label_clean_centered
      Epl.sampleImg9 Epl.sampleImg9 (chars "400638133393") (chars "400638133393")) = 2 :=
  (build_two_clean_stream_structure Epl.sampleImg9 Epl.sampleImg9
    (chars "400638133393") (chars "400638133393") _ rfl).2.2.2.2.2.2.1

end ZebraEpl

namespace ZebraEpl
namespace Lib

/-- Tuning constants of src/lib.rs (lines 15-27). -/
def LABEL_W : Nat := 440
def LABEL_H : Nat := 320
def DARKNESS : Nat := 8
def SPEED : Nat := 2
def NARROW : Nat := 2
def HEIGHT : Nat := 35
def BOLD_STROKE : Bool := true

/-- Embeds `ensure_valid_ean13` (src/lib.rs lines 415-428): filter to ASCII
digits, take the first 12 when 12 or more remain (the `len == 13` arm is dead
code, subsumed by `len >= 12`), otherwise left-align and pad to 12 with `'0'`
(`format!("{:0<12}", digits)`). -/
def ensure_valid_ean13 (barcode : List Char) : List Char :=
  let digits := barcode.filter isAsciiDigit
  if 12 ≤ digits.length then digits.take 12
  else if digits.length = 13 then digits.take 12
  else digits ++ List.replicate (12 - digits.length) '0'

/-- Embeds `build_two_product_label_with_brand` (src/lib.rs lines 35-127).
The brand bitmap comes from the inline rasterization block (external glyph
engine), so it is the parameter `brandImg`; the two products' glyph layouts
are `g1`, `g2`, rendered here through `render_name_price_space_between` as in
the source (scale 52 px is folded into the glyph data).  Vertical positions
follow the source's `i32` arithmetic with its negative gaps and `.max(0)`
clamps; `brand_x`/`x1`/`x2` use wrapping `u32` subtraction. -/
def build_two_product_label_with_brand (brandImg : Epl.Img) (g1 g2 : GlyphData)
    (barcode1 barcode2 : List Char) : List Seg :=
  let bc1 := ensure_valid_ean13 barcode1
  let bc2 := ensure_valid_ean13 barcode2
  let brand := Epl.image_to_row_bytes Epl.INVERT_BITS brandImg
  let p1 := render_name_price_space_between g1 (LABEL_W - 20) BOLD_STROKE
  let p2 := render_name_price_space_between g2 (LABEL_W - 20) BOLD_STROKE
  let half_h := LABEL_H / 2
  let brand_x := u32wsub LABEL_W brand.1 / 2
  let brand_y1 := 8
  let brand_y2 := half_h + 8
  let x1 := u32wsub LABEL_W p1.1 / 2
  let x2 := u32wsub LABEL_W p2.1 / 2
  let text1_y := (max (i32w (i32of brand_y1 + i32of brand.2.1 + (-6))) 0).toNat
  let bc1_y := (max (i32w (i32of text1_y + i32of p1.2.1 + 4)) 0).toNat
  let text2_y := (max (i32w (i32of brand_y2 + i32of brand.2.1 + (-6) + 4)) 0).toNat
  let bc2_y := (max (i32w (i32of text2_y + i32of p2.2.1 + 4)) 0).toNat
  let bx_center := center_x_for_ean13_single LABEL_W NARROW
  [Seg.line (chars "N"),
   Seg.line (chars "q" ++ natChars LABEL_W),
   Seg.line (chars "Q" ++ natChars LABEL_H ++ chars "," ++ natChars 24),
   Seg.line (chars "D" ++ natChars DARKNESS),
   Seg.line (chars "S" ++ natChars SPEED),
   Seg.gw brand_x brand_y1 brand.1 brand.2.1 brand.2.2,
   Seg.gw x1 text1_y p1.1 p1.2.1 p1.2.2,
   Seg.line (blineE30 bx_center bc1_y NARROW 3 HEIGHT bc1),
   Seg.gw brand_x brand_y2 brand.1 brand.2.1 brand.2.2,
   Seg.gw x2 text2_y p2.1 p2.2.1 p2.2.2,
   Seg.line (blineE30 bx_center bc2_y NARROW 3 HEIGHT bc2),
   Seg.line (chars "P1")]

/-- Embeds `build_four_product_label_with_brand` (src/lib.rs lines 133-257):
2×2 grid with quadrant size 220×160, signed gap `-2`, grid offset 18, and
per-quadrant centering; same external-bitmap parameters as the two-product
builder.  All `i32` expressions mirror the source's casts, truncating
divisions and `.max(0)` clamps. -/
def build_four_product_label_with_brand (brandImg : Epl.Img) (g1 g2 g3 g4 : GlyphData)
    (barcode1 barcode2 barcode3 barcode4 : List Char) : List Seg :=
  let bc1 := ensure_valid_ean13 barcode1
  let bc2 := ensure_valid_ean13 barcode2
  let bc3 := ensure_valid_ean13 barcode3
  let bc4 := ensure_valid_ean13 barcode4
  let brand := Epl.image_to_row_bytes Epl.INVERT_BITS brandImg
  let quad_w := LABEL_W / 2
  let quad_h := LABEL_H / 2
  let gap : Int := -2
  let grid_offset_y := 18
  let max_product_width := (max (i32w (i32of quad_w - Int.tdiv gap 2 - 10)) 0).toNat
  let p1 := render_name_price_space_between g1 max_product_width BOLD_STROKE
  let p2 := render_name_price_space_between g2 max_product_width BOLD_STROKE
  let p3 := render_name_price_space_between g3 max_product_width BOLD_STROKE
  let p4 := render_name_price_space_between g4 max_product_width BOLD_STROKE
  let brand_x_left := (max (Int.tdiv (i32w (i32of quad_w - Int.tdiv gap 2 - i32of brand.1)) 2) 0).toNat
  let brand_x_right := (max (i32w (i32of quad_w + Int.tdiv gap 2
      + Int.tdiv (i32w (i32of quad_w - i32of brand.1)) 2)) 0).toNat
  let brand_y_top := grid_offset_y + 4
  let brand_y_bottom := (max (i32w (i32of grid_offset_y + i32of quad_h + Int.tdiv gap 2 + 4)) 0).toNat
  let x1 := (max (Int.tdiv (i32w (i32of quad_w - Int.tdiv gap 2 - i32of p1.1)) 2) 0).toNat
  let x2 := (max (i32w (i32of quad_w + Int.tdiv gap 2
      + Int.tdiv (i32w (i32of quad_w - i32of p2.1)) 2)) 0).toNat
  let x3 := (max (Int.tdiv (i32w (i32of quad_w - Int.tdiv gap 2 - i32of p3.1)) 2) 0).toNat
  let x4 := (max (i32w (i32of quad_w + Int.tdiv gap 2
      + Int.tdiv (i32w (i32of quad_w - i32of p4.1)) 2)) 0).toNat
  let shift_up := 10
  let text1_y := brand_y_top + brand.2.1 + 6 - shift_up
  let bc1_y := text1_y + p1.2.1 + 3
  let text2_y := brand_y_top + brand.2.1 + 6 - shift_up
  let bc2_y := text2_y + p2.2.1 + 3
  let text3_y := brand_y_bottom + brand.2.1 + 6 - shift_up
  let bc3_y := text3_y + p3.2.1 + 3
  let text4_y := brand_y_bottom + brand.2.1 + 6 - shift_up
  let bc4_y := text4_y + p4.2.1 + 3
  let colc := center_x_for_ean13_column ((max (i32w (i32of quad_w - Int.tdiv gap 2)) 0).toNat) NARROW
  let bc_left_x := (max (i32w (i32of colc + 4)) 0).toNat
  let bc_right_x := (max (i32w (i32of quad_w + Int.tdiv gap 2 + i32of colc)) 0).toNat
  [Seg.line (chars "N"),
   Seg.line (chars "q" ++ natChars LABEL_W),
   Seg.line (chars "Q" ++ natChars LABEL_H ++ chars "," ++ natChars 24),
   Seg.line (chars "D" ++ natChars DARKNESS),
   Seg.line (chars "S" ++ natChars SPEED),
   Seg.gw brand_x_left brand_y_top brand.1 brand.2.1 brand.2.2,
   Seg.gw brand_x_right brand_y_top brand.1 brand.2.1 brand.2.2,
   Seg.gw x1 text1_y p1.1 p1.2.1 p1.2.2,
   Seg.line (blineE30 bc_left_x bc1_y NARROW 3 HEIGHT bc1),
   Seg.gw x2 text2_y p2.1 p2.2.1 p2.2.2,
   Seg.line (blineE30 bc_right_x bc2_y NARROW 3 HEIGHT bc2),
   Seg.gw brand_x_left brand_y_bottom brand.1 brand.2.1 brand.2.2,
   Seg.gw brand_x_right brand_y_bottom brand.1 brand.2.1 brand.2.2,
   Seg.gw x3 text3_y p3.1 p3.2.1 p3.2.2,
   Seg.line (blineE30 bc_left_x bc3_y NARROW 3 HEIGHT bc3),
   Seg.gw x4 text4_y p4.1 p4.2.1 p4.2.2,
   Seg.line (blineE30 bc_right_x bc4_y NARROW 3 HEIGHT bc4),
   Seg.line (chars "P1")]

end Lib
end ZebraEpl

namespace ZebraEpl
namespace Lib

/-- **C10.** `ensure_valid_ean13` is total and always yields exactly 12 ASCII
digits — the first 12 of the filtered digits when 12 or more remain,
right-padded with `'0'` otherwise — and the quoted payload of every `B`
command emitted by both brand builder entry points is exactly that value for
the corresponding input barcode. -/
theorem ensure_valid_ean13_payloads :
    (∀ bc : List Char,
        (ensure_valid_ean13 bc).length = 12
        ∧ (ensure_valid_ean13 bc).all isAsciiDigit = true
        ∧ ensure_valid_ean13 bc
            = (if 12 ≤ (bc.filter isAsciiDigit).length
               then (bc.filter isAsciiDigit).take 12
               else bc.filter isAsciiDigit
                 ++ List.replicate (12 - (bc.filter isAsciiDigit).length) '0'))
    ∧ (∀ (brandImg : Epl.Img) (g1 g2 : GlyphData) (b1 b2 : List Char),
        ∃ y1 y2,
          (build_two_product_label_with_brand brandImg g1 g2 b1 b2).filter isBLine
            = [Seg.line (blineE30 125 y1 2 3 35 (ensure_valid_ean13 b1)),
               Seg.line (blineE30 125 y2 2 3 35 (ensure_valid_ean13 b2))])
    ∧ (∀ (brandImg : Epl.Img) (g1 g2 g3 g4 : GlyphData) (b1 b2 b3 b4 : List Char),
        ∃ y1 y2 y3 y4,
          (build_four_product_label_with_brand brandImg g1 g2 g3 g4
              b1 b2 b3 b4).filter isBLine
            = [Seg.line (blineE30 19 y1 2 3 35 (ensure_valid_ean13 b1)),
               Seg.line (blineE30 234 y2 2 3 35 (ensure_valid_ean13 b2)),
               Seg.line (blineE30 19 y3 2 3 35 (ensure_valid_ean13 b3)),
               Seg.line (blineE30 234 y4 2 3 35 (ensure_valid_ean13 b4))]) := by
  refine ⟨?_, ?_, ?_⟩
  · intro bc
    refine ⟨?_, ?_, ?_⟩
    · simp only [ensure_valid_ean13]
      by_cases h : 12 ≤ (bc.filter isAsciiDigit).length
      · rw [if_pos h, List.length_take]
        omega
      · rw [if_neg h, if_neg (by omega), List.length_append, List.length_replicate]
        omega
    · simp only [ensure_valid_ean13]
      by_cases h : 12 ≤ (bc.filter isAsciiDigit).length
      · rw [if_pos h]
        exact Barcode.all_digits_take _ _ (Barcode.all_digits_filter bc)
      · rw [if_neg h, if_neg (by omega), List.all_append, Barcode.all_digits_filter bc,
          Bool.true_and, List.all_eq_true]
        intro a ha
        rw [List.eq_of_mem_replicate ha]
        rfl
    · by_cases h : 12 ≤ (bc.filter isAsciiDigit).length
      · simp only [ensure_valid_ean13, if_pos h]
      · have h13 : ¬ (bc.filter isAsciiDigit).length = 13 := by omega
        simp only [ensure_valid_ean13, if_neg h, if_neg h13]
  · intro brandImg g1 g2 b1 b2
    exact ⟨_, _, rfl⟩
  · intro brandImg g1 g2 g3 g4 b1 b2 b3 b4
    exact ⟨_, _, _, _, rfl⟩

end Lib
end ZebraEpl
